import Mathlib

/-!
Verification of the merit-order dispatch and cashflow/ROI engine of `esg.py`.

The pandas code is embedded shallowly: dataframes become lists of structures,
real-valued columns become `ℚ`, and the module-level cost dictionaries become
association lists.  Operations that the source performs on a dataframe row by
row (boolean masks, `groupby ... sum`, keyed lookups) become list filters,
filtered sums and `find?` respectively.  A pandas operation that yields NaN
(reading `dispatch.loc[m]` past the end of the frame, or `Series.map` on a key
missing from the dictionary) is modelled with `Option`: `none` marks the NaN
outcome.
-/

/-- One row of the supply stack: a generating unit.  `cumulative` is the
`cumulative` column of `supply.csv` (running sum of `mw` in merit order). -/
structure SupplyUnit where
  portfolio_name : String
  mw : ℚ
  mc : ℚ
  cumulative : ℚ
deriving DecidableEq

/-- One row of the per-unit dispatch frame built by `simulate` in `esg.py`. -/
structure DispatchRow where
  portfolio_name : String
  mw : ℚ
  mc : ℚ
  cumulative : ℚ
  inframarginal : Bool
  marginal : Bool
  gen : ℚ
  revenue : ℚ
deriving DecidableEq

/-- One row of the per-portfolio table returned by `simulate`.  `cost` is the
result of `portfolios['portfolio_name'].map(hrly_costs)`: `none` models the
NaN that pandas produces when the portfolio has no entry in `hrly_costs`,
and `profit = revenue + cost` propagates it. -/
structure PortfolioRow where
  portfolio_name : String
  revenue : ℚ
  cost : Option ℚ
  profit : Option ℚ
deriving DecidableEq

/-- The module-level dictionary `hrly_costs` of `esg.py`. -/
def hrly_costs : List (String × ℚ) :=
  [("Bay_Views", -5500), ("Beachfront", -6750), ("Big_Coal", -5000),
   ("Big_Gas", -2000), ("East_Bay", -4000), ("Fossil_Light", -9250),
   ("Old_Timers", -11250)]

/-- Keyed lookup in a cost dictionary (`Series.map(dict)`); `none` is the NaN
pandas substitutes for a missing key. -/
def lookupCostIn (cfg : List (String × ℚ)) (name : String) : Option ℚ :=
  (cfg.find? (fun kv => kv.1 == name)).map (·.2)

/-- Lookup in the global `hrly_costs` dictionary, as `simulate` does. -/
def lookupCost (name : String) : Option ℚ :=
  lookupCostIn hrly_costs name

/-- `marginal = len(dispatch.loc[dispatch['cumulative'] < load])`: the number
of units whose cumulative capacity is strictly below the load. -/
def marginalIndex (supply : List SupplyUnit) (load : ℚ) : Nat :=
  (supply.filter (fun u => decide (u.cumulative < load))).length

/-- The dispatch row `simulate` produces for the unit at position `i` of the
stack, given the marginal position `m` and the clearing price `cp`:
rows `0..m-1` are inframarginal at full capacity, row `m` is marginal and
serves the residual, later rows generate nothing, and every row is settled
at `gen * (cp - mc)`. -/
def mkRow (m : Nat) (cp load : ℚ) (i : Nat) (u : SupplyUnit) : DispatchRow :=
  let g : ℚ := if i < m then u.mw else if i = m then u.mw - (u.cumulative - load) else 0
  { portfolio_name := u.portfolio_name, mw := u.mw, mc := u.mc,
    cumulative := u.cumulative,
    inframarginal := decide (i < m), marginal := decide (i = m),
    gen := g, revenue := g * (cp - u.mc) }

/-- The dispatch frame, one row per unit, positions starting at `i`. -/
def buildRows (m : Nat) (cp load : ℚ) : Nat → List SupplyUnit → List DispatchRow
  | _, [] => []
  | i, u :: rest => mkRow m cp load i u :: buildRows m cp load (i + 1) rest

/-- The per-unit half of `simulate`: locates the marginal position, reads the
marginal unit's cost for the clearing price (`dispatch.loc[marginal]['mc'] +
offset`) and fills the frame.  When the marginal position is past the end of
the stack the source silently enlarges the frame with a NaN row and every
revenue becomes NaN; the model returns `none` there. -/
def dispatchRows (supply : List SupplyUnit) (load offset : ℚ) : Option (List DispatchRow) :=
  (supply.get? (marginalIndex supply load)).map fun mu =>
    buildRows (marginalIndex supply load) (mu.mc + offset) load 0 supply

/-- `groupby('portfolio_name').agg({'revenue': 'sum'})` restricted to one
portfolio: the summed revenue of its units. -/
def revFor (rows : List DispatchRow) (name : String) : ℚ :=
  ((rows.filter (fun row => row.portfolio_name == name)).map (·.revenue)).sum

/-- Summed generation of one portfolio's units in a dispatch frame. -/
def genFor (rows : List DispatchRow) (name : String) : ℚ :=
  ((rows.filter (fun row => row.portfolio_name == name)).map (·.gen)).sum

/-- The whole of `simulate` with the cost dictionary passed explicitly: the
per-portfolio table with summed revenue, mapped hourly cost and profit.
(The pandas groupby lists each portfolio once; the source orders groups by
key, the model keeps first-appearance order, which no settled property
observes.) -/
def simulateWith (cfg : List (String × ℚ)) (supply : List SupplyUnit)
    (load offset : ℚ) : Option (List PortfolioRow) :=
  (dispatchRows supply load offset).map fun rows =>
    ((rows.map (·.portfolio_name)).dedup).map fun name =>
      let rev := revFor rows name
      let cost := lookupCostIn cfg name
      { portfolio_name := name, revenue := rev, cost := cost,
        profit := cost.map (fun c => rev + c) }

/-- `simulate(supply, load, offset)` of `esg.py`, reading the module-level
`hrly_costs`. -/
def simulate (supply : List SupplyUnit) (load offset : ℚ) : Option (List PortfolioRow) :=
  simulateWith hrly_costs supply load offset

/-- The profit `simulate` reports for one portfolio. -/
def portfolioProfit (supply : List SupplyUnit) (load offset : ℚ)
    (name : String) : Option ℚ :=
  (simulate supply load offset).bind fun table =>
    (table.find? (fun row => row.portfolio_name == name)).bind (·.profit)

/-- Validity of the cumulative-capacity column relative to a running total
`b`: every capacity is positive and each `cumulative` extends the prefix sum. -/
def validFrom : ℚ → List SupplyUnit → Prop
  | _, [] => True
  | b, u :: rest => 0 < u.mw ∧ u.cumulative = b + u.mw ∧ validFrom u.cumulative rest

instance instDecValidFrom : (b : ℚ) → (l : List SupplyUnit) → Decidable (validFrom b l)
  | _, [] => .isTrue trivial
  | b, u :: rest =>
    have : Decidable (validFrom u.cumulative rest) := instDecValidFrom _ _
    inferInstanceAs (Decidable (0 < u.mw ∧ u.cumulative = b + u.mw ∧ validFrom u.cumulative rest))

/-- The stack is sorted ascending by marginal cost. -/
def sortedByCost : List SupplyUnit → Bool
  | [] => true
  | [_] => true
  | a :: b :: rest => decide (a.mc ≤ b.mc) && sortedByCost (b :: rest)

/-- Last value of the cumulative column, continuing a running total `b`. -/
def totalFrom : ℚ → List SupplyUnit → ℚ
  | b, [] => b
  | _, u :: rest => totalFrom u.cumulative rest

/-- Total system capacity, `supply['cumulative'].tail(1).iloc[0]`. -/
def total (supply : List SupplyUnit) : ℚ := totalFrom 0 supply

/-- One row of the `financials` table fed to `roi`: a (day, portfolio)
profit record. -/
structure FinRow where
  day : Nat
  portfolio_name : String
  profit : ℚ
deriving DecidableEq

/-- One row of the ledger `roi` returns: what is owed at the beginning of the
day (after interest), the payment applied to debt, and the realized cashflow. -/
structure LedgerEntry where
  day : Nat
  owed : ℚ
  payment : ℚ
  cash_flow : ℚ
deriving DecidableEq

/-- Outcome of one day of the amortization loop in `roi`. -/
structure DayOutcome where
  owed_begin : ℚ
  payment : ℚ
  cash_flow : ℚ
  owed_after : ℚ
deriving DecidableEq

/-- The body of the day loop of `roi`: accrue interest first
(`owed *= (1 + r)`), then branch on the day's inflow exactly as the
`if inflow < 0 / elif inflow <= owed / elif owed > 0 / else` chain does. -/
def roiDay (r owed inflow : ℚ) : DayOutcome :=
  let ob := owed * (1 + r)
  if inflow < 0 then ⟨ob, 0, inflow, ob - inflow⟩
  else if inflow ≤ ob then ⟨ob, inflow, 0, ob - inflow⟩
  else if 0 < ob then ⟨ob, ob, inflow - ob, 0⟩
  else ⟨ob, 0, inflow, ob⟩

/-- Whether the grouped financials contain a row for this portfolio and day
(`f.loc[f['day'] == day, 'profit']` is nonempty). -/
def hasDay (results : List FinRow) (p : String) (d : Nat) : Bool :=
  results.any (fun row => row.portfolio_name == p && row.day == d)

/-- The grouped profit of one (day, portfolio) cell:
`results.groupby(['day','portfolio_name']).agg({'profit':'sum'})`. -/
def dayProfit (results : List FinRow) (p : String) (d : Nat) : ℚ :=
  ((results.filter (fun row => row.portfolio_name == p && row.day == d)).map (·.profit)).sum

/-- The day loop of `roi` over an explicit list of days, threading the `owed`
balance.  A day with no row for the portfolio makes `.iloc[0]` raise
IndexError in the source; the model returns `none` there. -/
def roiLoop (results : List FinRow) (p : String) (r : ℚ) :
    List Nat → ℚ → Option (List LedgerEntry)
  | [], _ => some []
  | d :: ds, owed =>
    if hasDay results p d then
      let o := roiDay r owed (dayProfit results p d)
      (roiLoop results p r ds o.owed_after).map fun rest =>
        ⟨d, o.owed_begin, o.payment, o.cash_flow⟩ :: rest
    else none

/-- `roi(results, portfolio, overhead, r)`: the loop runs over the hard-coded
days `range(1, 7)` of the source. -/
def roi (results : List FinRow) (p : String) (overhead r : ℚ) :
    Option (List LedgerEntry) :=
  roiLoop results p r [1, 2, 3, 4, 5, 6] overhead

/-- The ROI figure `__main__` computes from the ledger:
`output['cash_flow'].sum() / overhead * 100`. -/
def roiPercent (results : List FinRow) (p : String) (overhead r : ℚ) : Option ℚ :=
  (roi results p overhead r).map fun ledger =>
    ((ledger.map (·.cash_flow)).sum) / overhead * 100

/-- The interpreter state the two engines can see: the input frames and the
module-level cost dictionary.  `simulate` copies the supply frame before
writing any column and `roi` derives a fresh grouped frame from `results`,
so the state is returned untouched. -/
structure PyState where
  supply : List SupplyUnit
  results : List FinRow
  hrly : List (String × ℚ)
deriving DecidableEq

/-- `simulate` as a state transformer: `dispatch = supply.copy()` directs all
column writes at the copy, so the visible state passes through unchanged. -/
def simulateSt (st : PyState) (load offset : ℚ) :
    PyState × Option (List PortfolioRow) :=
  (st, simulateWith st.hrly st.supply load offset)

/-- `roi` as a state transformer: the grouped frame `f` is a fresh object, so
the `results` frame and the configuration pass through unchanged. -/
def roiSt (st : PyState) (p : String) (overhead r : ℚ) :
    PyState × Option (List LedgerEntry) :=
  (st, roi st.results p overhead r)

/-- The two-unit scenario stack of the spec: cost 10 / cap 50 / cum 50 and
cost 20 / cap 50 / cum 100. -/
def c1Stack : List SupplyUnit :=
  [⟨"Big_Coal", 50, 10, 50⟩, ⟨"Big_Gas", 50, 20, 100⟩]

/-- A stack whose only portfolio has no entry in `hrly_costs`. -/
def c9Stack : List SupplyUnit :=
  [⟨"Windy_Hills", 50, 10, 50⟩]

/-- A six-day profit series that retires the debt on day 1 and realizes a
cumulative cashflow of 11250 against an overhead of 225000. -/
def c5Results : List FinRow :=
  [⟨1, "Fossil_Light", 247500⟩, ⟨2, "Fossil_Light", 0⟩, ⟨3, "Fossil_Light", 0⟩,
   ⟨4, "Fossil_Light", 0⟩, ⟨5, "Fossil_Light", 0⟩, ⟨6, "Fossil_Light", 0⟩]

/-- The ledger `roi` produces for `c5Results` at overhead 225000, rate 1/20. -/
def c5Ledger : List LedgerEntry :=
  [⟨1, 236250, 236250, 11250⟩, ⟨2, 0, 0, 0⟩, ⟨3, 0, 0, 0⟩,
   ⟨4, 0, 0, 0⟩, ⟨5, 0, 0, 0⟩, ⟨6, 0, 0, 0⟩]

/-- A seven-day profit series (days 1..7). -/
def c7Results : List FinRow :=
  [⟨1, "Old_Timers", 0⟩, ⟨2, "Old_Timers", 0⟩, ⟨3, "Old_Timers", 0⟩,
   ⟨4, "Old_Timers", 0⟩, ⟨5, "Old_Timers", 0⟩, ⟨6, "Old_Timers", 0⟩,
   ⟨7, "Old_Timers", 1000⟩]

theorem mkRow_gen (m : Nat) (cp load : ℚ) (i : Nat) (u : SupplyUnit) :
    (mkRow m cp load i u).gen =
      if i < m then u.mw else if i = m then u.mw - (u.cumulative - load) else 0 := rfl

theorem mkRow_revenue (m : Nat) (cp load : ℚ) (i : Nat) (u : SupplyUnit) :
    (mkRow m cp load i u).revenue = (mkRow m cp load i u).gen * (cp - u.mc) := rfl

theorem buildRows_length (m : Nat) (cp load : ℚ) :
    ∀ (l : List SupplyUnit) (i : Nat), (buildRows m cp load i l).length = l.length := by
  intro l
  induction l with
  | nil => intro i; rfl
  | cons u rest ih => intro i; simp [buildRows, ih]

theorem buildRows_get (m : Nat) (cp load : ℚ) :
    ∀ (l : List SupplyUnit) (i j : Nat),
      (buildRows m cp load i l).get? j = (l.get? j).map (mkRow m cp load (i + j)) := by
  intro l
  induction l with
  | nil => intro i j; simp [buildRows]
  | cons u rest ih =>
    intro i j
    cases j with
    | zero => simp [buildRows]
    | succ j =>
      simp only [buildRows, List.get?_cons_succ]
      rw [ih (i + 1) j, show i + 1 + j = i + (j + 1) by omega]

theorem buildRows_names (m : Nat) (cp load : ℚ) :
    ∀ (l : List SupplyUnit) (i : Nat),
      (buildRows m cp load i l).map (·.portfolio_name) = l.map (·.portfolio_name) := by
  intro l
  induction l with
  | nil => intro i; rfl
  | cons u rest ih => intro i; simp [buildRows, ih, mkRow]

theorem validFrom_lt_cumulative :
    ∀ (l : List SupplyUnit) (b : ℚ), validFrom b l → ∀ u ∈ l, b < u.cumulative := by
  intro l
  induction l with
  | nil => intro b _ u hu; cases hu
  | cons v rest ih =>
    rintro b ⟨hmw, hcum, hrest⟩ u hu
    rcases List.mem_cons.mp hu with rfl | hu
    · rw [hcum]; linarith
    · exact lt_trans (by rw [hcum]; linarith) (ih v.cumulative hrest u hu)

theorem totalFrom_mem :
    ∀ (l : List SupplyUnit) (b : ℚ), l ≠ [] → ∃ u ∈ l, u.cumulative = totalFrom b l := by
  intro l
  induction l with
  | nil => intro b h; exact absurd rfl h
  | cons v rest ih =>
    intro b _
    cases rest with
    | nil => exact ⟨v, List.mem_singleton.mpr rfl, rfl⟩
    | cons w rest2 =>
      obtain ⟨u, hu, hc⟩ := ih v.cumulative (by simp)
      exact ⟨u, List.mem_cons_of_mem v hu, hc⟩

theorem marginalIndex_cons (u : SupplyUnit) (l : List SupplyUnit) (load : ℚ) :
    marginalIndex (u :: l) load =
      (if u.cumulative < load then 1 else 0) + marginalIndex l load := by
  by_cases h : u.cumulative < load
  · simp [marginalIndex, List.filter_cons, h, Nat.add_comm]
  · simp [marginalIndex, List.filter_cons, h]

theorem marginalIndex_le_length (l : List SupplyUnit) (load : ℚ) :
    marginalIndex l load ≤ l.length :=
  List.length_filter_le _ _

theorem marginalIndex_lt_length (l : List SupplyUnit) (b load : ℚ)
    (hne : l ≠ []) (hle : load ≤ totalFrom b l) :
    marginalIndex l load < l.length := by
  obtain ⟨u, hu, hc⟩ := totalFrom_mem l b hne
  refine lt_of_le_of_ne (marginalIndex_le_length l load) ?_
  intro heq
  have hall := (List.countP_eq_length (p := fun v => decide (v.cumulative < load))).mp ?_ u hu
  · rw [decide_eq_true_eq] at hall
    rw [hc] at hall
    exact absurd hle (not_le.mpr hall)
  · rw [← heq, marginalIndex, List.countP_eq_length_filter]

theorem marginalIndex_eq_zero (l : List SupplyUnit) (b load : ℚ)
    (hv : validFrom b l) (hload : load ≤ b) :
    marginalIndex l load = 0 := by
  rw [marginalIndex, List.length_eq_zero, List.filter_eq_nil_iff]
  intro u hu
  have := validFrom_lt_cumulative l b hv u hu
  rw [decide_eq_true_eq]
  push_neg
  linarith

theorem buildRows_gen_zero (m : Nat) (cp load : ℚ) :
    ∀ (l : List SupplyUnit) (i : Nat), m < i →
      ∀ r ∈ buildRows m cp load i l, r.gen = 0 := by
  intro l
  induction l with
  | nil => intro i _ r hr; cases hr
  | cons u rest ih =>
    intro i hmi r hr
    rcases List.mem_cons.mp hr with rfl | hr
    · rw [mkRow_gen, if_neg (by omega), if_neg (by omega)]
    · exact ih (i + 1) (by omega) r hr

theorem buildRows_gen_sum_zero (m : Nat) (cp load : ℚ)
    (l : List SupplyUnit) (i : Nat) (hmi : m < i) :
    ((buildRows m cp load i l).map (·.gen)).sum = 0 := by
  apply List.sum_eq_zero
  intro x hx
  obtain ⟨r, hr, rfl⟩ := List.mem_map.mp hx
  exact buildRows_gen_zero m cp load l i hmi r hr

theorem buildRows_gen_sum :
    ∀ (l : List SupplyUnit) (b load cp : ℚ) (i : Nat),
      validFrom b l → b ≤ load → load ≤ totalFrom b l →
      ((buildRows (i + marginalIndex l load) cp load i l).map (·.gen)).sum = load - b := by
  intro l
  induction l with
  | nil =>
    intro b load cp i _ hb hl
    have : load = b := le_antisymm hl hb
    simp [buildRows, this]
  | cons u rest ih =>
    rintro b load cp i ⟨hmw, hcum, hrest⟩ hb hl
    have hl' : load ≤ totalFrom u.cumulative rest := hl
    by_cases hc : u.cumulative < load
    · rw [marginalIndex_cons, if_pos hc]
      have harith : i + (1 + marginalIndex rest load) = (i + 1) + marginalIndex rest load := by
        omega
      rw [harith]
      simp only [buildRows, List.map_cons, List.sum_cons]
      rw [mkRow_gen, if_pos (by omega)]
      rw [ih u.cumulative load cp (i + 1) hrest (le_of_lt hc) hl']
      rw [hcum]; ring
    · rw [marginalIndex_cons, if_neg hc,
        marginalIndex_eq_zero rest u.cumulative load hrest (not_lt.mp hc)]
      simp only [Nat.add_zero, buildRows, List.map_cons, List.sum_cons]
      rw [mkRow_gen, if_neg (by omega), if_pos rfl]
      rw [buildRows_gen_sum_zero _ _ _ _ _ (by omega)]
      rw [hcum]; ring

theorem buildRows_gen_offset_free (m : Nat) (cp offset load : ℚ) :
    ∀ (l : List SupplyUnit) (i : Nat),
      (buildRows m (cp + offset) load i l).map (·.gen) =
        (buildRows m cp load i l).map (·.gen) := by
  intro l
  induction l with
  | nil => intro i; rfl
  | cons u rest ih => intro i; simp [buildRows, ih, mkRow]

theorem revFor_buildRows_offset (m : Nat) (cp offset load : ℚ) (name : String) :
    ∀ (l : List SupplyUnit) (i : Nat),
      revFor (buildRows m (cp + offset) load i l) name =
        revFor (buildRows m cp load i l) name +
          offset * genFor (buildRows m cp load i l) name ∧
      genFor (buildRows m (cp + offset) load i l) name =
        genFor (buildRows m cp load i l) name := by
  intro l
  induction l with
  | nil => intro i; simp [buildRows, revFor, genFor]
  | cons u rest ih =>
    intro i
    obtain ⟨ihrev, ihgen⟩ := ih (i + 1)
    have hname : ∀ cp', (mkRow m cp' load i u).portfolio_name = u.portfolio_name := fun _ => rfl
    by_cases h : (u.portfolio_name == name) = true
    · simp only [revFor, genFor, buildRows, List.filter_cons, hname, h, if_true,
        eq_self_iff_true, List.map_cons, List.sum_cons] at ihrev ihgen ⊢
      constructor
      · simp only [mkRow_revenue, mkRow_gen]
        rw [ihrev]
        ring
      · simp only [mkRow_gen]
        rw [ihgen]
    · simp only [revFor, genFor, buildRows, List.filter_cons, hname, h, if_false]
        at ihrev ihgen ⊢
      exact ⟨ihrev, ihgen⟩

theorem buildRows_count_marginal (m : Nat) (cp load : ℚ) :
    ∀ (l : List SupplyUnit) (i : Nat),
      (buildRows m cp load i l).countP (·.marginal) =
        if i ≤ m ∧ m < i + l.length then 1 else 0 := by
  intro l
  induction l with
  | nil =>
    intro i
    simp only [buildRows, List.countP_nil, List.length_nil]
    rw [if_neg (by omega)]
  | cons u rest ih =>
    intro i
    simp only [buildRows, List.countP_cons, ih (i + 1), mkRow, decide_eq_true_eq,
      List.length_cons]
    split_ifs <;> omega

theorem buildRows_count_infra (m : Nat) (cp load : ℚ) :
    ∀ (l : List SupplyUnit) (i : Nat), m ≤ i →
      (buildRows m cp load i l).countP (·.inframarginal) = 0 := by
  intro l
  induction l with
  | nil => intro i _; rfl
  | cons u rest ih =>
    intro i hmi
    simp only [buildRows, List.countP_cons, ih (i + 1) (by omega), mkRow,
      decide_eq_true_eq]
    rw [if_neg (by omega)]

theorem buildRows_gen_load_zero :
    ∀ (l : List SupplyUnit) (cp : ℚ), validFrom 0 l →
      ∀ r ∈ buildRows 0 cp 0 0 l, r.gen = 0 := by
  intro l cp hv r hr
  cases l with
  | nil => cases hr
  | cons u rest =>
    obtain ⟨hmw, hcum, hrest⟩ := hv
    simp only [buildRows] at hr
    rcases List.mem_cons.mp hr with rfl | hr
    · rw [mkRow_gen, if_neg (by omega), if_pos rfl, hcum]; ring
    · exact buildRows_gen_zero 0 cp 0 rest 1 (by omega) r hr

theorem find?_map_portfolio (F : String → PortfolioRow)
    (hF : ∀ s, (F s).portfolio_name = s) :
    ∀ (names : List String) (name : String), name ∈ names →
      (names.map F).find? (fun row => row.portfolio_name == name) = some (F name) := by
  intro names
  induction names with
  | nil => intro name h; cases h
  | cons n rest ih =>
    intro name hmem
    by_cases h : n = name
    · subst h
      rw [List.map_cons]
      exact List.find?_cons_of_pos _ (by simp [hF])
    · rw [List.map_cons, List.find?_cons_of_neg _ (by simp [hF, h])]
      refine ih name ?_
      rcases List.mem_cons.mp hmem with rfl | hmem
      · exact absurd rfl h
      · exact hmem

theorem dispatchRows_eq_some (supply : List SupplyUnit) (load offset : ℚ)
    (rows : List DispatchRow) (hrows : dispatchRows supply load offset = some rows) :
    ∃ mu, supply.get? (marginalIndex supply load) = some mu ∧
      rows = buildRows (marginalIndex supply load) (mu.mc + offset) load 0 supply := by
  obtain ⟨mu, hmu, hrw⟩ := Option.map_eq_some'.mp hrows
  exact ⟨mu, hmu, hrw.symm⟩

theorem simulate_profit_eq (supply : List SupplyUnit) (load offset : ℚ) (name : String)
    (rows : List DispatchRow)
    (hrows : dispatchRows supply load offset = some rows)
    (hmem : name ∈ supply.map (·.portfolio_name)) :
    portfolioProfit supply load offset name =
      (lookupCost name).map (fun c => revFor rows name + c) := by
  obtain ⟨mu, hmu, hrw⟩ := dispatchRows_eq_some supply load offset rows hrows
  have hnames : rows.map (·.portfolio_name) = supply.map (·.portfolio_name) := by
    rw [hrw]; exact buildRows_names _ _ _ _ _
  unfold portfolioProfit simulate simulateWith
  rw [hrows]
  simp only [Option.map_some', Option.some_bind]
  rw [find?_map_portfolio _ (fun s => rfl) _ name
    (List.mem_dedup.mpr (by rw [hnames]; exact hmem))]
  rfl

theorem roiLoop_days (results : List FinRow) (p : String) (r : ℚ) :
    ∀ (ds : List Nat) (owed : ℚ) (ledger : List LedgerEntry),
      roiLoop results p r ds owed = some ledger → ledger.map (·.day) = ds := by
  intro ds
  induction ds with
  | nil =>
    intro owed ledger h
    simp only [roiLoop, Option.some.injEq] at h
    rw [← h]; rfl
  | cons d ds ih =>
    intro owed ledger h
    simp only [roiLoop] at h
    by_cases hd : hasDay results p d
    · rw [if_pos hd] at h
      obtain ⟨rest, hrest, hl⟩ := Option.map_eq_some'.mp h
      rw [← hl]
      simp [ih _ _ hrest]
    · rw [if_neg hd] at h; cases h

theorem roiLoop_isSome (results : List FinRow) (p : String) (r : ℚ) :
    ∀ (ds : List Nat) (owed : ℚ),
      (roiLoop results p r ds owed).isSome = true ↔
        ∀ d ∈ ds, hasDay results p d = true := by
  intro ds
  induction ds with
  | nil => intro owed; simp [roiLoop]
  | cons d ds ih =>
    intro owed
    by_cases hd : hasDay results p d
    · simp [roiLoop, hd, ih]
    · simp only [roiLoop, if_neg hd, Option.isSome_none, Bool.false_eq_true, false_iff]
      intro hall
      exact hd (hall d (List.mem_cons_self d ds))

/-- C1: for a supply stack sorted ascending by marginal cost with valid
cumulative capacities and a load between 0 and the total capacity, `simulate`
locates the marginal position as the count of units whose cumulative capacity
is strictly below the load; units before it generate their full capacity, the
marginal unit generates `mw - (cumulative - load)`, units after it generate
zero, and every unit's revenue is `gen * ((marginal unit's mc + offset) - mc)`. -/
theorem dispatch_merit_order (supply : List SupplyUnit) (load offset : ℚ)
    (hs : sortedByCost supply = true) (hv : validFrom 0 supply) (hne : supply ≠ [])
    (h0 : 0 ≤ load) (hle : load ≤ total supply) :
    ∃ mu rows,
      supply.get? (marginalIndex supply load) = some mu ∧
      dispatchRows supply load offset = some rows ∧
      marginalIndex supply load =
        (supply.filter (fun u => decide (u.cumulative < load))).length ∧
      rows.length = supply.length ∧
      ∀ j u r, supply.get? j = some u → rows.get? j = some r →
        (j < marginalIndex supply load → r.gen = u.mw) ∧
        (j = marginalIndex supply load → r.gen = u.mw - (u.cumulative - load)) ∧
        (marginalIndex supply load < j → r.gen = 0) ∧
        r.revenue = r.gen * ((mu.mc + offset) - u.mc) := by
  have hm : marginalIndex supply load < supply.length :=
    marginalIndex_lt_length supply 0 load hne hle
  refine ⟨supply.get ⟨marginalIndex supply load, hm⟩,
    buildRows (marginalIndex supply load)
      ((supply.get ⟨marginalIndex supply load, hm⟩).mc + offset) load 0 supply,
    List.get?_eq_get hm, ?_, rfl, buildRows_length _ _ _ _ _, ?_⟩
  · rw [dispatchRows, List.get?_eq_get hm, Option.map_some']
  · intro j u r hu hr
    rw [buildRows_get, hu, Option.map_some', Option.some.injEq, Nat.zero_add] at hr
    subst hr
    refine ⟨?_, ?_, ?_, mkRow_revenue _ _ _ _ _⟩
    · intro hj; rw [mkRow_gen, if_pos hj]
    · intro hj; rw [mkRow_gen, if_neg (by omega), if_pos hj]
    · intro hj; rw [mkRow_gen, if_neg (by omega), if_neg (by omega)]

/-- C2: for a sorted, cumulative-valid supply stack and a load between 0 and
the total capacity, the generation column of the dispatch frame sums to the
load. -/
theorem dispatch_load_balance (supply : List SupplyUnit) (load offset : ℚ)
    (hs : sortedByCost supply = true) (hv : validFrom 0 supply) (hne : supply ≠ [])
    (h0 : 0 ≤ load) (hle : load ≤ total supply) :
    ∃ rows, dispatchRows supply load offset = some rows ∧
      ((rows.map (·.gen)).sum) = load := by
  have hm : marginalIndex supply load < supply.length :=
    marginalIndex_lt_length supply 0 load hne hle
  refine ⟨buildRows (marginalIndex supply load)
    ((supply.get ⟨marginalIndex supply load, hm⟩).mc + offset) load 0 supply, ?_, ?_⟩
  · rw [dispatchRows, List.get?_eq_get hm, Option.map_some']
  · have := buildRows_gen_sum supply 0 load
      ((supply.get ⟨marginalIndex supply load, hm⟩).mc + offset) 0 hv h0 hle
    rw [Nat.zero_add] at this
    rw [this, sub_zero]

/-- C8: for a sorted, cumulative-valid supply stack and a load between 0 and
the total capacity, exactly one dispatch row is flagged marginal; at load 0
the marginal position is the first unit, no row is flagged inframarginal,
and every row's generation is zero. -/
theorem dispatch_unique_marginal (supply : List SupplyUnit) (load offset : ℚ)
    (hs : sortedByCost supply = true) (hv : validFrom 0 supply) (hne : supply ≠ [])
    (h0 : 0 ≤ load) (hle : load ≤ total supply) :
    ∃ rows, dispatchRows supply load offset = some rows ∧
      rows.countP (·.marginal) = 1 ∧
      (load = 0 →
        marginalIndex supply 0 = 0 ∧
        rows.countP (·.inframarginal) = 0 ∧
        (∀ r ∈ rows, r.gen = 0) ∧
        ∃ r0, rows.get? 0 = some r0 ∧ r0.marginal = true) := by
  have hm : marginalIndex supply load < supply.length :=
    marginalIndex_lt_length supply 0 load hne hle
  refine ⟨buildRows (marginalIndex supply load)
    ((supply.get ⟨marginalIndex supply load, hm⟩).mc + offset) load 0 supply, ?_, ?_, ?_⟩
  · rw [dispatchRows, List.get?_eq_get hm, Option.map_some']
  · rw [buildRows_count_marginal]
    rw [if_pos (by omega)]
  · intro hl0
    subst hl0
    have hm0 : marginalIndex supply 0 = 0 :=
      marginalIndex_eq_zero supply 0 0 hv le_rfl
    generalize (supply.get ⟨marginalIndex supply 0, hm⟩).mc + offset = cp
    rw [hm0]
    refine ⟨rfl, buildRows_count_infra _ _ _ _ _ (le_refl 0), ?_, ?_⟩
    · exact buildRows_gen_load_zero supply cp hv
    · cases supply with
      | nil => exact absurd rfl hne
      | cons u rest =>
        refine ⟨mkRow 0 cp 0 0 u, ?_, rfl⟩
        rw [buildRows_get]
        rfl

/-- C6: at any clearing-price offset, dispatch produces the same generation
per unit as at offset 0 and a revenue exactly `gen * offset` larger, so the
profit `simulate` reports for a configured portfolio equals its profit at
offset 0 plus the portfolio's total generation times the offset. -/
theorem dispatch_offset_linear (supply : List SupplyUnit) (load offset : ℚ)
    (hv : validFrom 0 supply) (hne : supply ≠ [])
    (h0 : 0 ≤ load) (hle : load ≤ total supply) :
    ∃ rows0 rowsO,
      dispatchRows supply load 0 = some rows0 ∧
      dispatchRows supply load offset = some rowsO ∧
      (∀ j r0 rO, rows0.get? j = some r0 → rowsO.get? j = some rO →
        rO.gen = r0.gen ∧ rO.revenue = r0.revenue + r0.gen * offset) ∧
      (∀ name c, lookupCost name = some c →
        name ∈ supply.map (·.portfolio_name) →
        ∃ p0, portfolioProfit supply load 0 name = some p0 ∧
          portfolioProfit supply load offset name =
            some (p0 + genFor rows0 name * offset)) := by
  have hm : marginalIndex supply load < supply.length :=
    marginalIndex_lt_length supply 0 load hne hle
  set mu := supply.get ⟨marginalIndex supply load, hm⟩ with hmu
  have hr0 : dispatchRows supply load 0 =
      some (buildRows (marginalIndex supply load) (mu.mc + 0) load 0 supply) := by
    rw [dispatchRows, List.get?_eq_get hm, Option.map_some']
  have hrO : dispatchRows supply load offset =
      some (buildRows (marginalIndex supply load) (mu.mc + offset) load 0 supply) := by
    rw [dispatchRows, List.get?_eq_get hm, Option.map_some']
  have hcp : mu.mc + 0 + offset = mu.mc + offset := by ring
  refine ⟨_, _, hr0, hrO, ?_, ?_⟩
  · intro j r0 rO h0j hOj
    rw [buildRows_get] at h0j hOj
    cases hu : supply.get? j with
    | none => rw [hu] at h0j; cases h0j
    | some u =>
      rw [hu, Option.map_some', Option.some.injEq] at h0j hOj
      subst h0j; subst hOj
      constructor
      · rw [mkRow_gen, mkRow_gen]
      · rw [mkRow_revenue, mkRow_revenue, mkRow_gen, mkRow_gen]
        ring
  · intro name c hc hmem
    have hshift := revFor_buildRows_offset (marginalIndex supply load) (mu.mc + 0)
      offset load name supply 0
    rw [hcp] at hshift
    refine ⟨revFor (buildRows (marginalIndex supply load) (mu.mc + 0) load 0 supply)
      name + c, ?_, ?_⟩
    · rw [simulate_profit_eq supply load 0 name _ hr0 hmem, hc, Option.map_some']
    · rw [simulate_profit_eq supply load offset name _ hrO hmem, hc, Option.map_some',
        Option.some.injEq, hshift.1]
      ring

/-- C4: one day of the amortization loop first accrues interest, recording
`owed * (1 + daily_rate)` as the day's owed value, and then follows exactly
the four payoff branches: negative inflow grows the debt by the shortfall,
an inflow within the balance is paid in full with zero cashflow, an inflow
exceeding a positive balance retires it and realizes the excess, and with a
retired balance the whole inflow is realized as cashflow. -/
theorem amortize_day_branches (r owed inflow : ℚ) :
    (roiDay r owed inflow).owed_begin = owed * (1 + r) ∧
    (inflow < 0 →
      roiDay r owed inflow =
        ⟨owed * (1 + r), 0, inflow, owed * (1 + r) - inflow⟩) ∧
    (0 ≤ inflow → inflow ≤ owed * (1 + r) →
      roiDay r owed inflow =
        ⟨owed * (1 + r), inflow, 0, owed * (1 + r) - inflow⟩) ∧
    (owed * (1 + r) < inflow → 0 < owed * (1 + r) →
      roiDay r owed inflow =
        ⟨owed * (1 + r), owed * (1 + r), inflow - owed * (1 + r), 0⟩) ∧
    (owed * (1 + r) = 0 → 0 ≤ inflow →
      (roiDay r owed inflow).payment = 0 ∧
        (roiDay r owed inflow).cash_flow = inflow) := by
  simp only [roiDay]
  refine ⟨?_, ?_, ?_, ?_, ?_⟩
  · split_ifs <;> rfl
  · intro h1; rw [if_pos h1]
  · intro hnn hle
    rw [if_neg (by linarith), if_pos hle]
  · intro hgt hpos
    rw [if_neg (by linarith), if_neg (by linarith), if_pos hpos]
  · intro hz hnn
    rw [if_neg (by linarith)]
    by_cases hle : inflow ≤ owed * (1 + r)
    · rw [if_pos hle]
      have h0 : inflow = 0 := le_antisymm (by rw [← hz]; exact hle) hnn
      exact ⟨h0, h0.symm⟩
    · rw [if_neg hle, if_neg (by rw [hz]; exact lt_irrefl 0)]
      exact ⟨rfl, rfl⟩

/-- C5: the ROI main-block formula is `sum(cash_flow) / overhead * 100` over
the ledger `roi` returns, and on a series whose ledger cashflows sum to 11250
against overhead 225000 it yields exactly 5. -/
theorem roi_percentage :
    (∀ (results : List FinRow) (p : String) (overhead r : ℚ)
        (ledger : List LedgerEntry),
      roi results p overhead r = some ledger →
      roiPercent results p overhead r =
        some (((ledger.map (·.cash_flow)).sum) / overhead * 100)) ∧
    roi c5Results "Fossil_Light" 225000 (1/20) = some c5Ledger ∧
    ((c5Ledger.map (·.cash_flow)).sum) = 11250 ∧
    roiPercent c5Results "Fossil_Light" 225000 (1/20) = some 5 := by
  refine ⟨?_, ?_, ?_, ?_⟩
  · intro results p overhead r ledger h
    rw [roiPercent, h, Option.map_some']
  · norm_num [roi, roiLoop, roiDay, hasDay, dayProfit, c5Results, c5Ledger,
      List.filter_cons, List.any_cons, beq_iff_eq]
  · norm_num [c5Ledger]
  · norm_num [roiPercent, roi, roiLoop, roiDay, hasDay, dayProfit, c5Results,
      List.filter_cons, List.any_cons, beq_iff_eq]

/-- C7 (amended): the amortization loop always runs over the hard-coded days
1..6: every ledger it returns covers exactly the days [1,2,3,4,5,6], and it
returns a ledger precisely when the series has a row for this portfolio on
each of those six days (a missing day aborts the loop, extra days are
ignored). -/
theorem roi_fixed_six_days (results : List FinRow) (p : String)
    (overhead r : ℚ) :
    (∀ ledger, roi results p overhead r = some ledger →
      ledger.map (·.day) = [1, 2, 3, 4, 5, 6]) ∧
    ((roi results p overhead r).isSome = true ↔
      ∀ d ∈ ([1, 2, 3, 4, 5, 6] : List Nat), hasDay results p d = true) :=
  ⟨fun ledger h => roiLoop_days results p r _ overhead ledger h,
    roiLoop_isSome results p r _ overhead⟩

/-- C7 (counterexample): on a seven-day profit series the loop still covers
only days 1..6 and silently ignores day 7, and on a one-day series it fails
on the missing day 2 instead of running over days 1..N. -/
theorem roi_not_days_one_to_n :
    c7Results.map (·.day) = [1, 2, 3, 4, 5, 6, 7] ∧
    (roi c7Results "Old_Timers" 100 0).map (List.map (·.day)) =
      some [1, 2, 3, 4, 5, 6] ∧
    roi [⟨1, "Old_Timers", 5⟩] "Old_Timers" 100 0 = none := by
  refine ⟨by decide, ?_, ?_⟩
  · norm_num [roi, roiLoop, roiDay, hasDay, dayProfit, c7Results,
      List.filter_cons, List.any_cons, beq_iff_eq]
  · norm_num [roi, roiLoop, hasDay, List.any_cons, beq_iff_eq]

/-- C3: at load 120 on the two-unit scenario stack no unit's cumulative
capacity reaches the load, so the marginal position equals the stack length
(one past the last row); instead of raising an insufficient-capacity error
the source addresses this out-of-range label, which the model surfaces as
the absence of a dispatch result. -/
theorem dispatch_overload_out_of_range :
    marginalIndex c1Stack 120 = 2 ∧ c1Stack.length = 2 ∧
    dispatchRows c1Stack 120 0 = none ∧ simulate c1Stack 120 0 = none := by
  refine ⟨by decide, rfl, by decide, ?_⟩
  rw [simulate, simulateWith, show dispatchRows c1Stack 120 0 = none from by decide]
  rfl

/-- C9: a portfolio absent from `hrly_costs` does not make `simulate` fail:
the source maps its cost to NaN (modelled `none`), propagates NaN into the
profit, and returns the aggregated table anyway. -/
theorem aggregate_missing_portfolio_nan :
    lookupCost "Windy_Hills" = none ∧
    simulate c9Stack 10 0 =
      some [{ portfolio_name := "Windy_Hills", revenue := 0,
              cost := none, profit := none }] := by
  constructor
  · decide
  · norm_num [simulate, simulateWith, dispatchRows, c9Stack, marginalIndex,
      buildRows, mkRow, revFor, lookupCostIn, lookupCost, hrly_costs,
      List.filter_cons, beq_iff_eq]
    decide

/-- C10: the dispatch and amortization engines leave the supply stack, the
results table and the cost configuration unchanged, and a second call on the
same inputs — even after the other engine ran in between — returns the same
output: there is no hidden state. -/
theorem engine_purity (st : PyState) (load offset overhead r : ℚ) (p : String) :
    (simulateSt st load offset).1 = st ∧
    (roiSt st p overhead r).1 = st ∧
    (simulateSt ((roiSt st p overhead r).1) load offset).2 =
      (simulateSt st load offset).2 ∧
    (roiSt ((simulateSt st load offset).1) p overhead r).2 =
      (roiSt st p overhead r).2 :=
  ⟨rfl, rfl, rfl, rfl⟩

/-- Witness for C1: the scenario stack at load 70 satisfies the hypotheses
and the dispatched frame has the claimed shape. -/
theorem dispatch_merit_order_witness :
    sortedByCost c1Stack = true ∧ validFrom 0 c1Stack ∧
    (0:ℚ) ≤ 70 ∧ (70:ℚ) ≤ total c1Stack ∧
    (∃ mu rows,
      c1Stack.get? (marginalIndex c1Stack 70) = some mu ∧
      dispatchRows c1Stack 70 0 = some rows ∧
      marginalIndex c1Stack 70 =
        (c1Stack.filter (fun u => decide (u.cumulative < 70))).length ∧
      rows.length = c1Stack.length ∧
      ∀ j u r, c1Stack.get? j = some u → rows.get? j = some r →
        (j < marginalIndex c1Stack 70 → r.gen = u.mw) ∧
        (j = marginalIndex c1Stack 70 → r.gen = u.mw - (u.cumulative - 70)) ∧
        (marginalIndex c1Stack 70 < j → r.gen = 0) ∧
        r.revenue = r.gen * ((mu.mc + 0) - u.mc)) :=
  ⟨by decide, by norm_num [validFrom, c1Stack], by decide, by decide,
    dispatch_merit_order c1Stack 70 0 (by decide)
      (by norm_num [validFrom, c1Stack]) (by decide) (by decide) (by decide)⟩

/-- Witness for C2: at load 70 on the scenario stack the generation column
sums to 70. -/
theorem dispatch_load_balance_witness :
    ∃ rows, dispatchRows c1Stack 70 0 = some rows ∧
      ((rows.map (·.gen)).sum) = 70 :=
  dispatch_load_balance c1Stack 70 0 (by decide)
    (by norm_num [validFrom, c1Stack]) (by decide) (by decide) (by decide)

/-- Witness for C8: at load 0 on the scenario stack exactly one row is
marginal, none is inframarginal and all generation is zero. -/
theorem dispatch_unique_marginal_witness :
    ∃ rows, dispatchRows c1Stack 0 0 = some rows ∧
      rows.countP (·.marginal) = 1 ∧
      ((0:ℚ) = 0 →
        marginalIndex c1Stack 0 = 0 ∧
        rows.countP (·.inframarginal) = 0 ∧
        (∀ r ∈ rows, r.gen = 0) ∧
        ∃ r0, rows.get? 0 = some r0 ∧ r0.marginal = true) :=
  dispatch_unique_marginal c1Stack 0 0 (by decide)
    (by norm_num [validFrom, c1Stack]) (by decide) (by decide) (by decide)

/-- Witness for C6: at load 70 and offset 3 on the scenario stack the
generation is unchanged and every revenue and configured profit shifts by
`gen * 3`. -/
theorem dispatch_offset_linear_witness :
    ∃ rows0 rowsO,
      dispatchRows c1Stack 70 0 = some rows0 ∧
      dispatchRows c1Stack 70 3 = some rowsO ∧
      (∀ j r0 rO, rows0.get? j = some r0 → rowsO.get? j = some rO →
        rO.gen = r0.gen ∧ rO.revenue = r0.revenue + r0.gen * 3) ∧
      (∀ name c, lookupCost name = some c →
        name ∈ c1Stack.map (·.portfolio_name) →
        ∃ p0, portfolioProfit c1Stack 70 0 name = some p0 ∧
          portfolioProfit c1Stack 70 3 name =
            some (p0 + genFor rows0 name * 3)) :=
  dispatch_offset_linear c1Stack 70 3
    (by norm_num [validFrom, c1Stack]) (by decide) (by decide) (by decide)

/-- Witness for C4: the spec's scenario day — overhead 225000 at rate 1/20
with inflow -9250 accrues to 236250 owed, pays nothing, realizes -9250 and
ends the day owing 245500. -/
theorem amortize_day_branches_witness :
    roiDay (1/20) 225000 (-9250) = ⟨236250, 0, -9250, 245500⟩ := by
  have h := (amortize_day_branches (1/20) 225000 (-9250)).2.1 (by norm_num)
  rw [h]
  norm_num [DayOutcome.mk.injEq]

/-- Witness for C5: the formula applied to the concrete six-day ledger. -/
theorem roi_percentage_witness :
    roiPercent c5Results "Fossil_Light" 225000 (1/20) =
      some (((c5Ledger.map (·.cash_flow)).sum) / 225000 * 100) :=
  roi_percentage.1 c5Results "Fossil_Light" 225000 (1/20) c5Ledger
    roi_percentage.2.1

/-- Witness for C7: the ledger of the concrete six-day series covers exactly
days 1..6. -/
theorem roi_fixed_six_days_witness :
    c5Ledger.map (·.day) = [1, 2, 3, 4, 5, 6] :=
  (roi_fixed_six_days c5Results "Fossil_Light" 225000 (1/20)).1 c5Ledger
    (by norm_num [roi, roiLoop, roiDay, hasDay, dayProfit, c5Results, c5Ledger,
      List.filter_cons, List.any_cons, beq_iff_eq])
